import Mathlib

/-!
Verification development for the real-time background-grayscale video
pipeline (frontend/src/utils/effectsProcessor.ts,
frontend/src/components/BackgroundFilteredVideo.tsx,
frontend/src/hooks/useSegmentation.ts).

Shallow embedding conventions:
* `ImageData` is the DOM ImageData value: width, height and a flat RGBA byte
  list.  Bytes are `Nat`s; a real `Uint8ClampedArray` keeps them in 0..255.
  The DOM constructor guarantees `data.length = width * height * 4`; the
  embedding does not bake that invariant into the type, theorems assume it
  where they need it.
* JavaScript reads `arr[i]` past the end of a typed array yield `undefined`,
  and `undefined < t` is `false`; this is modelled with `List.getElem?`
  (`none` compares as not-below-threshold).
* The grayscale arithmetic runs on IEEE-754 doubles in the browser.  Every
  double is an exact rational, and each JavaScript operation rounds its
  exact result to the nearest double (ties to even), so the weighted method
  is embedded bit-exactly: `fl` rounds a rational to the nearest binary64
  value, `jsMul`/`jsAdd` are double multiplication and addition, and
  `toUint8Clamp` is the ECMA-262 clamped store (round to nearest integer,
  ties to even).  For the Average method, `(r+g+b)/3` on byte inputs never
  lands within one double-rounding error of a half-integer, so the direct
  natural-number rounding `(r+g+b+1)/3` stores the same byte the program
  does.
-/

/-- DOM ImageData: RGBA-interleaved byte data plus pixel dimensions
(effectsProcessor.ts works on these). -/
structure ImageData where
  width : Nat
  height : Nat
  data : List Nat
deriving DecidableEq, Repr

/-- effectsProcessor.ts `ProcessingOptions`: both fields optional in TS,
defaults resolved inside `applyGrayscaleToBackground` by destructuring. -/
structure ProcessingOptions where
  threshold : Option Nat := none
  useWeightedGrayscale : Option Bool := none
deriving DecidableEq, Repr

/-- effectsProcessor.ts line 11: `const DEFAULT_THRESHOLD = 255;`. -/
def DEFAULT_THRESHOLD : Nat := 255

/-- Uint8ClampedArray write: clamp to the 0..255 byte range (the rounding to
an integer is already done by `grayAvg` / `grayWeighted`). -/
def clampByte (x : Nat) : Nat := min x 255

/-- Average grayscale `(r + g + b) / 3` (effectsProcessor.ts line 60),
rounded to the nearest integer as the Uint8ClampedArray store does.  The
byte sum s = r+g+b is an exact double and the double quotient s/3 differs
from the exact value s/3 by far less than the distance of that value (whose
fractional part is 0, 1/3 or 2/3 — never a tie) to the nearest
half-integer, so the stored byte is the exact round-to-nearest
`(s + 1) / 3` in natural division. -/
def grayAvg (r g b : Nat) : Nat := (r + g + b + 1) / 3

/-!
Bit-exact IEEE-754 binary64 arithmetic for the weighted grayscale
`0.299 * r + 0.587 * g + 0.114 * b` (effectsProcessor.ts line 57).  The
decimal weight literals are not exactly representable as doubles, so the
double products and sums carry rounding errors that matter at the store's
half-integer boundaries; the embedding therefore rounds every intermediate
result to the nearest double, exactly as the hardware does.

Every nonnegative double is a dyadic rational m / 2^s; `Dyadic` carries it
as the pair (m, s), and each IEEE operation is "compute the exact dyadic
result, then round the significand to 53 bits, ties to even"
(`dyRound53`).  All arithmetic is on naturals, so the definitions evaluate
inside the kernel.  The values reachable from byte inputs stay far inside
the binary64 normal range, so overflow and subnormal handling never
trigger and are omitted.
-/

/-- A nonnegative dyadic rational m / 2^s — the exact value of a
nonnegative double (every value of this computation is nonnegative). -/
structure Dyadic where
  m : Nat
  s : Nat
deriving DecidableEq, Repr

/-- Floor binary logarithm ⌊log₂ n⌋ for n ≥ 1, with explicit fuel so it is
structurally recursive and kernel-reducible (the halving terminates long
before the fuel n runs out). -/
def natLog2Aux : Nat → Nat → Nat
  | 0, _ => 0
  | fuel + 1, n => if n < 2 then 0 else natLog2Aux fuel (n / 2) + 1

/-- Floor binary logarithm of a natural number. -/
def natLog2 (n : Nat) : Nat := natLog2Aux n n

/-- Round m / 2^s to the nearest double (53-bit significand), ties to even:
if m has more than 53 bits, drop the k excess bits of the significand,
rounding on the dropped remainder against the half point 2^(k-1). -/
def dyRound53 (m s : Nat) : Dyadic :=
  let L := if m = 0 then 0 else natLog2 m + 1
  if L ≤ 53 then ⟨m, s⟩
  else
    let k := L - 53
    let q := m / 2 ^ k
    let r := m % 2 ^ k
    let half := 2 ^ (k - 1)
    let q2 := if r < half then q else if half < r then q + 1 else if q % 2 = 0 then q else q + 1
    if k ≤ s then ⟨q2, s - k⟩ else ⟨q2 * 2 ^ (k - s), 0⟩

/-- IEEE double multiplication: exact dyadic product, rounded. -/
def dyMul (a b : Dyadic) : Dyadic := dyRound53 (a.m * b.m) (a.s + b.s)

/-- IEEE double addition: align exponents, exact sum, rounded. -/
def dyAdd (a b : Dyadic) : Dyadic :=
  let s := max a.s b.s
  dyRound53 (a.m * 2 ^ (s - a.s) + b.m * 2 ^ (s - b.s)) s

/-- The double a natural number converts to (exact below 2^53, which covers
every byte the program reads). -/
def dyFromNat (n : Nat) : Dyadic := dyRound53 n 0

/-- The double nearest the fraction a/b for 0 < a < b — JavaScript number
literals such as `0.299` denote the nearest double to their decimal value.
The exponent E with a/b ∈ [2^(-E), 2^(-E+1)) is located through the bit
lengths of a and b, the significand is the correctly rounded (ties to even)
integer quotient a·2^(52+E) / b. -/
def dyOfFracLt1 (a b : Nat) : Dyadic :=
  let d := natLog2 b - natLog2 a
  let E := if b ≤ a * 2 ^ d then d else d + 1
  let n := a * 2 ^ (52 + E)
  let q := n / b
  let r := n % b
  let m := if 2 * r < b then q else if b < 2 * r then q + 1 else if q % 2 = 0 then q else q + 1
  ⟨m, 52 + E⟩

/-- The double denoted by the source literal `0.299`. -/
def W299 : Dyadic := dyOfFracLt1 299 1000

/-- The double denoted by the source literal `0.587`. -/
def W587 : Dyadic := dyOfFracLt1 587 1000

/-- The double denoted by the source literal `0.114`. -/
def W114 : Dyadic := dyOfFracLt1 114 1000

/-- ECMA-262 ToUint8Clamp: the Uint8ClampedArray store of a (nonnegative)
double — clamp to [0,255], round to the nearest integer, ties to even. -/
def dyToUint8Clamp (x : Dyadic) : Nat :=
  if 255 * 2 ^ x.s ≤ x.m then 255
  else if x.s = 0 then x.m
  else
    let q := x.m / 2 ^ x.s
    let r := x.m % 2 ^ x.s
    let half := 2 ^ (x.s - 1)
    if r < half then q else if half < r then q + 1 else if q % 2 = 0 then q else q + 1

/-- Weighted grayscale `0.299 * r + 0.587 * g + 0.114 * b`
(effectsProcessor.ts line 57) computed exactly as the program computes it:
the byte operands convert to doubles exactly, the three products and the two
left-associated sums are IEEE double operations, and the result is stored
through ToUint8Clamp (lines 64-66).  The model agrees with the IEEE-double
computation on every one of the 256³ byte triples (checked exhaustively
against hardware doubles), including the exact-tie triples where a naive
exact-rational rounding differs, such as (0,80,110) ↦ 59 and
(5,113,41) ↦ 73. -/
def grayWeighted (r g b : Nat) : Nat :=
  dyToUint8Clamp (dyAdd (dyAdd (dyMul W299 (dyFromNat r)) (dyMul W587 (dyFromNat g)))
    (dyMul W114 (dyFromNat b)))

/-- The grayscale value of the methods actually selected by the
`useWeightedGrayscale` flag (effectsProcessor.ts lines 53-61), including the
clamped store. -/
def grayValue (weighted : Bool) (r g b : Nat) : Nat :=
  clampByte (if weighted then grayWeighted r g b else grayAvg r g b)

/-- effectsProcessor.ts lines 44-47: `const maskValue = maskData[i]; if
(maskValue < threshold)`.  An out-of-range read gives `undefined`, and
`undefined < threshold` is `false` in JavaScript. -/
def maskBelow (maskData : List Nat) (i threshold : Nat) : Bool :=
  match maskData[i]? with
  | some v => v < threshold
  | none => false

/-- The pixel loop of `applyGrayscaleToBackground` (effectsProcessor.ts
lines 41-70): walk the frame bytes four at a time with byte index `i`, and
where the mask sample `maskData[i]` is below the threshold replace R,G,B
with the gray value and keep the alpha byte.  The final catch-all handles a
frame byte list whose length is not a multiple of 4, which the ImageData
constructor rules out (`data.length = width*height*4`). -/
def processPixels (threshold : Nat) (weighted : Bool) (maskData : List Nat) :
    Nat → List Nat → List Nat
  | _, [] => []
  | i, r :: g :: b :: a :: rest =>
    if maskBelow maskData i threshold then
      let gray := grayValue weighted r g b
      gray :: gray :: gray :: a :: processPixels threshold weighted maskData (i + 4) rest
    else
      r :: g :: b :: a :: processPixels threshold weighted maskData (i + 4) rest
  | _, rest => rest

/-- effectsProcessor.ts lines 20-73 `applyGrayscaleToBackground`: resolve the
option defaults (`threshold = DEFAULT_THRESHOLD`, `useWeightedGrayscale =
false`), then clone the frame and run the pixel loop over the clone.  The
clone-and-mutate structure itself is embedded separately as `grayLoop`; this
is the resulting value. -/
def applyGrayscaleToBackground (originalFrame segmentationMask : ImageData)
    (options : ProcessingOptions := {}) : ImageData :=
  let threshold := options.threshold.getD DEFAULT_THRESHOLD
  let useWeighted := options.useWeightedGrayscale.getD false
  { width := originalFrame.width
    height := originalFrame.height
    data := processPixels threshold useWeighted segmentationMask.data 0 originalFrame.data }

/-- effectsProcessor.ts lines 78-86 `areCompatibleDimensions`. -/
def areCompatibleDimensions (imageData1 imageData2 : ImageData) : Bool :=
  imageData1.width == imageData2.width && imageData1.height == imageData2.height

/-- BackgroundFilteredVideo.tsx lines 208-217: the scheduler's per-tick
output decision — composite when a mask is present and dimension-compatible,
otherwise pass the raw frame through (the `ctx.drawImage(video, ...)`
fallback).  The call on line 210 passes no options, so the compositor runs
with its defaults.  Both branches are ordinary returns: no exception reaches
the caller. -/
def renderTick (frameData : ImageData) (segmentationMask : Option ImageData) : ImageData :=
  match segmentationMask with
  | some mask =>
    if areCompatibleDimensions frameData mask then
      applyGrayscaleToBackground frameData mask {}
    else
      frameData
  | none => frameData

/-!
Imperative view of `applyGrayscaleToBackground` (effectsProcessor.ts lines
30-70): the function first builds `processedFrame` from a copy of
`originalFrame.data` (lines 31-35) and the loop then reads from and writes to
that copy (`frameData = processedFrame.data`, line 37) while
`segmentationMask.data` is only read.  `EffBuffers` carries both byte arrays
so that the absence of writes to the original is a provable statement rather
than a modelling assumption.  `List.set` ignores an out-of-range index,
exactly as a typed-array store does.
-/

/-- The two byte arrays live during a `applyGrayscaleToBackground` call: the
caller's `originalFrame.data` and the freshly allocated clone
`processedFrame.data`. -/
structure EffBuffers where
  original : List Nat
  processed : List Nat
deriving DecidableEq, Repr

/-- The three stores `frameData[i] = gray; frameData[i+1] = gray;
frameData[i+2] = gray` (effectsProcessor.ts lines 64-66). -/
def writeGray (l : List Nat) (i gray : Nat) : List Nat :=
  ((l.set i gray).set (i + 1) gray).set (i + 2) gray

/-- One iteration body of the pixel loop acting on the processed buffer
(effectsProcessor.ts lines 44-68): sample the mask at byte index `i`, and if
below threshold read r,g,b from the processed buffer and store the gray
value back into it. -/
def grayBody (threshold : Nat) (weighted : Bool) (maskData : List Nat) (i : Nat)
    (l : List Nat) : List Nat :=
  if maskBelow maskData i threshold then
    let r := (l[i]?).getD 0
    let g := (l[i + 1]?).getD 0
    let b := (l[i + 2]?).getD 0
    writeGray l i (grayValue weighted r g b)
  else l

theorem length_writeGray (l : List Nat) (i gray : Nat) :
    (writeGray l i gray).length = l.length := by
  simp [writeGray]

theorem length_grayBody (threshold : Nat) (weighted : Bool) (maskData : List Nat)
    (i : Nat) (l : List Nat) :
    (grayBody threshold weighted maskData i l).length = l.length := by
  unfold grayBody
  split
  · simp [length_writeGray]
  · rfl

/-- The loop `for (let i = 0; i < frameData.length; i += 4)`
(effectsProcessor.ts line 41) over the buffer pair: only the processed
buffer is touched. -/
def grayLoop (threshold : Nat) (weighted : Bool) (maskData : List Nat) (i : Nat)
    (st : EffBuffers) : EffBuffers :=
  if h : i < st.processed.length then
    grayLoop threshold weighted maskData (i + 4)
      { st with processed := grayBody threshold weighted maskData i st.processed }
  else st
termination_by st.processed.length - i
decreasing_by
  simp only [length_grayBody]
  omega

/-- effectsProcessor.ts lines 20-73 as the clone-then-mutate computation: the
processed buffer starts as a copy of the original (lines 31-35) and the loop
starts at byte index 0. -/
def applyGrayscaleToBackgroundImp (originalFrame segmentationMask : ImageData)
    (options : ProcessingOptions := {}) : EffBuffers :=
  grayLoop (options.threshold.getD DEFAULT_THRESHOLD)
    (options.useWeightedGrayscale.getD false)
    segmentationMask.data 0
    { original := originalFrame.data, processed := originalFrame.data }

/-!
Segmentation session manager (frontend/src/hooks/useSegmentation.ts).  The
hook's mutable refs relevant to staleness are `isProcessingEnabledRef`,
`latestResultRef` and `sessionIdRef`; `onResults` is the MediaPipe result
callback, `reset`/`enable` the session transitions, and `processFrame`
returns `latestResultRef.current` after awaiting `send`.  The canvas
round-trip inside `onResults` (draw the provider bitmap, read it back as
ImageData) is modelled as delivering the mask value itself; the null-canvas
early returns cannot fire after initialization succeeds.
-/

/-- Mutable state of the useSegmentation hook (useSegmentation.ts lines
17-20): the cached mask slot, the session counter and the enabled flag. -/
structure SegState where
  isProcessingEnabled : Bool
  latestResult : Option ImageData
  sessionId : Nat
deriving DecidableEq, Repr

/-- Initial ref values (useSegmentation.ts lines 17-20): cache empty, session
0, processing enabled. -/
def initialSegState : SegState :=
  { isProcessingEnabled := true, latestResult := none, sessionId := 0 }

/-- useSegmentation.ts lines 43-72 `onResults`: drop the delivered result
when `isProcessingEnabledRef.current` is false, otherwise cache it in
`latestResultRef`.  No session-id comparison appears in this callback:
`sessionIdRef` is written by `reset` but never read here. -/
def SegState.onResults (s : SegState) (segmentationMask : Option ImageData) : SegState :=
  if !s.isProcessingEnabled then s
  else
    match segmentationMask with
    | some m => { s with latestResult := some m }
    | none => s

/-- useSegmentation.ts lines 124-133 `reset`: disable processing, clear the
cached result, increment the session id. -/
def SegState.reset (s : SegState) : SegState :=
  { isProcessingEnabled := false, latestResult := none, sessionId := s.sessionId + 1 }

/-- useSegmentation.ts lines 135-139 `enable`: enable processing and clear
the cached result. -/
def SegState.enable (s : SegState) : SegState :=
  { s with isProcessingEnabled := true, latestResult := none }

/-- What `processFrame` hands back after `await send` (useSegmentation.ts
line 107): the currently cached mask. -/
def requestMaskResult (s : SegState) : Option ImageData := s.latestResult

/-- Manager-facing events of a trace.  Issuing a request (`send`) does not
change the manager's state — the request lives in the provider — so a trace
is the sequence of `reset`/`enable` calls and result-callback deliveries. -/
inductive SegEvent where
  | resetCall : SegEvent
  | enableCall : SegEvent
  | resultCallback : Option ImageData → SegEvent
deriving DecidableEq

/-- Apply one event to the manager state. -/
def segStep (s : SegState) : SegEvent → SegState
  | SegEvent.resetCall => s.reset
  | SegEvent.enableCall => s.enable
  | SegEvent.resultCallback m => s.onResults m

/-- Run a trace of events left to right. -/
def segRun (s : SegState) (es : List SegEvent) : SegState :=
  es.foldl segStep s

/-!
Frame scheduler (BackgroundFilteredVideo.tsx).  `processVideoFrame` (lines
151-259) is an async function: it runs synchronously up to
`await processFrame(video)` (line 200) and resumes when the mask future
resolves.  The embedding splits it at that point into `tickStart` and
`tickComplete`.  Timestamps are rationals standing for the real-valued
`performance.now()` milliseconds; only sign tests and counts of recorded
samples matter to the claims, and those agree with the browser's
double-precision arithmetic.
-/

/-- Scheduler refs (BackgroundFilteredVideo.tsx lines 25-28):
`isProcessingActiveRef`, `isFrameProcessingRef` (the in-flight guard),
`fpsCounterRef` and `lastFrameTimeRef`. -/
structure SchedState where
  isProcessingActive : Bool
  isFrameProcessing : Bool
  fpsCounter : List ℚ
  lastFrameTime : ℚ
deriving DecidableEq

/-- Scheduler state right after the effect arms the loop
(BackgroundFilteredVideo.tsx lines 122, 148-149): active, no tick in flight,
stats cleared. -/
def startedSchedState : SchedState :=
  { isProcessingActive := true, isFrameProcessing := false
    fpsCounter := [], lastFrameTime := 0 }

/-- Synchronous prefix of `processVideoFrame` (BackgroundFilteredVideo.tsx
lines 151-164): return untouched when inactive (line 153); when the guard
flag is set, only re-arm and return — the tick is dropped with no capture,
no compositing and no stats (lines 156-162); otherwise set the guard (line
164) and proceed toward the awaited mask request.  The returned Bool is
true exactly when the tick entered processing; a dropped or inactive tick
leaves the state unchanged.  The video/canvas availability checks of lines
166-191 (which also just clear the guard and re-arm) are outside the claims
and assume the scenario's playing video. -/
def tickStart (s : SchedState) : SchedState × Bool :=
  if !s.isProcessingActive then (s, false)
  else if s.isFrameProcessing then (s, false)
  else ({ s with isFrameProcessing := true }, true)

/-- The FPS bookkeeping of a completed tick (BackgroundFilteredVideo.tsx
lines 224-247): push `1000 / delta` when the delta since the previous
completed tick is positive, keep only the last 30 samples, and update
`lastFrameTimeRef` unconditionally. -/
def recordStats (s : SchedState) (now : ℚ) : SchedState :=
  let deltaTime := now - s.lastFrameTime
  let counter :=
    if 0 < deltaTime then
      let pushed := s.fpsCounter ++ [1000 / deltaTime]
      if 30 < pushed.length then pushed.drop 1 else pushed
    else s.fpsCounter
  { s with fpsCounter := counter, lastFrameTime := now }

/-- Resumption of `processVideoFrame` after the awaited mask arrives
(BackgroundFilteredVideo.tsx lines 203-258): if deactivated during the
await, clear the guard and record nothing (lines 203-206); otherwise emit
the tick's output (lines 208-217, modelled by `renderTick`), record the FPS
sample (lines 224-247) and clear the guard (line 253). -/
def tickComplete (s : SchedState) (now : ℚ) : SchedState :=
  if !s.isProcessingActive then { s with isFrameProcessing := false }
  else { recordStats s now with isFrameProcessing := false }

/-! Supporting lemmas about list indexing, the gray value and the pixel
loop. -/

theorem getElem?_cons4 (x1 x2 x3 x4 : Nat) (L : List Nat) (n : Nat) :
    (x1 :: x2 :: x3 :: x4 :: L)[n + 4]? = L[n]? := by
  rw [show n + 4 = (((n + 1) + 1) + 1) + 1 from by omega]
  rw [List.getElem?_cons_succ, List.getElem?_cons_succ, List.getElem?_cons_succ,
    List.getElem?_cons_succ]

theorem getElem?_append_off (l1 l2 : List Nat) (k : Nat) :
    (l1 ++ l2)[l1.length + k]? = l2[k]? := by
  rw [List.getElem?_append_right (by omega)]
  congr 1
  omega

theorem set_append_off (l1 l2 : List Nat) (k v : Nat) :
    (l1 ++ l2).set (l1.length + k) v = l1 ++ l2.set k v := by
  induction l1 with
  | nil => simp
  | cons x xs ihx =>
    have e : (x :: xs).length + k = (xs.length + k) + 1 := by simp; omega
    rw [e]
    simp [List.set, ihx]

theorem grayValue_le (w : Bool) (r g b : Nat) : grayValue w r g b ≤ 255 := by
  simp only [grayValue, clampByte]
  exact Nat.min_le_right _ _

set_option maxRecDepth 8000 in
set_option maxHeartbeats 1600000 in
/-- A gray byte is a fixed point of either grayscale method: on input
(c, c, c) the Average path stores (3c+1)/3 = c, and the weighted double
computation lands within a few ulps of c — far less than a half — so the
store returns c; the weighted case is checked for every byte value. -/
theorem grayValue_fixpoint (w : Bool) (c : Nat) (hc : c ≤ 255) : grayValue w c c c = c := by
  cases w with
  | false =>
    simp [grayValue, grayAvg, clampByte]
    omega
  | true =>
    have h : ∀ c' : Nat, c' < 256 → grayValue true c' c' c' = c' := by decide
    exact h c (by omega)

/-- Pixels whose mask sample is at or above the threshold are left exactly as
they are: the loop is the identity when every sample in range clears the
threshold. -/
theorem processPixels_id (t : Nat) (w : Bool) (m : List Nat) :
    ∀ (d : List Nat) (i : Nat),
      (∀ j v, j % 4 = 0 → i ≤ j → j < i + d.length → m[j]? = some v → t ≤ v) →
      i % 4 = 0 → processPixels t w m i d = d
  | [], _, _, _ => by simp [processPixels]
  | [x], _, _, _ => by simp [processPixels]
  | [x, y], _, _, _ => by simp [processPixels]
  | [x, y, z], _, _, _ => by simp [processPixels]
  | r :: g :: b :: a :: rest, i, h, hi => by
    have hmb : maskBelow m i t = false := by
      unfold maskBelow
      cases hm : m[i]? with
      | none => rfl
      | some v =>
        have hv := h i v hi (Nat.le_refl i) (by simp only [List.length_cons]; omega) hm
        simp [Nat.not_lt.mpr hv]
    simp [processPixels, hmb]
    exact processPixels_id t w m rest (i + 4)
      (fun j v hj hij hjlt hm =>
        h j v hj (by omega) (by simp only [List.length_cons]; omega) hm) (by omega)

/-- Applying the loop twice gives the same bytes as applying it once: grayed
pixels are fixed points and kept pixels stay kept, because the branch taken
at byte index i depends only on the mask. -/
theorem processPixels_idem (t : Nat) (w : Bool) (m : List Nat) :
    ∀ (d : List Nat) (i : Nat),
      processPixels t w m i (processPixels t w m i d) = processPixels t w m i d
  | [], _ => by simp [processPixels]
  | [x], _ => by simp [processPixels]
  | [x, y], _ => by simp [processPixels]
  | [x, y, z], _ => by simp [processPixels]
  | r :: g :: b :: a :: rest, i => by
    have ih := processPixels_idem t w m rest (i + 4)
    cases hc : maskBelow m i t with
    | false =>
      simp [processPixels, hc, ih]
    | true =>
      have hfix := grayValue_fixpoint w (grayValue w r g b) (grayValue_le w r g b)
      simp [processPixels, hc, hfix, ih]

/-- When every mask sample in range is below the threshold, pixel j of the
loop's output is (gray, gray, gray, alpha) for the gray value of the
method in use. -/
theorem processPixels_bg (t : Nat) (w : Bool) (m : List Nat) :
    ∀ (d : List Nat) (i : Nat), i % 4 = 0 →
      (∀ j, i ≤ j → j < i + d.length → j % 4 = 0 → maskBelow m j t = true) →
      ∀ (j r g b a : Nat),
        d[4 * j]? = some r → d[4 * j + 1]? = some g →
        d[4 * j + 2]? = some b → d[4 * j + 3]? = some a →
        (processPixels t w m i d)[4 * j]? = some (grayValue w r g b) ∧
        (processPixels t w m i d)[4 * j + 1]? = some (grayValue w r g b) ∧
        (processPixels t w m i d)[4 * j + 2]? = some (grayValue w r g b) ∧
        (processPixels t w m i d)[4 * j + 3]? = some a
  | [], _, _, _ => by
    intro j r g b a h1 _ _ _
    simp at h1
  | [x], _, _, _ => by
    intro j r g b a _ _ _ h4
    rcases List.getElem?_eq_some.mp h4 with ⟨hlt, _⟩
    simp only [List.length_cons, List.length_nil] at hlt
    omega
  | [x, y], _, _, _ => by
    intro j r g b a _ _ _ h4
    rcases List.getElem?_eq_some.mp h4 with ⟨hlt, _⟩
    simp only [List.length_cons, List.length_nil] at hlt
    omega
  | [x, y, z], _, _, _ => by
    intro j r g b a _ _ _ h4
    rcases List.getElem?_eq_some.mp h4 with ⟨hlt, _⟩
    simp only [List.length_cons, List.length_nil] at hlt
    omega
  | r0 :: g0 :: b0 :: a0 :: rest, i, hi, hmask => by
    intro j r g b a h1 h2 h3 h4
    have hc : maskBelow m i t = true :=
      hmask i (Nat.le_refl i) (by simp only [List.length_cons]; omega) hi
    cases j with
    | zero =>
      simp at h1 h2 h3 h4
      subst h1 h2 h3 h4
      simp [processPixels, hc]
    | succ n =>
      rw [show 4 * (n + 1) + 3 = (4 * n + 3) + 4 from by omega] at h4 ⊢
      rw [show 4 * (n + 1) + 2 = (4 * n + 2) + 4 from by omega] at h3 ⊢
      rw [show 4 * (n + 1) + 1 = (4 * n + 1) + 4 from by omega] at h2 ⊢
      rw [show 4 * (n + 1) = 4 * n + 4 from by omega] at h1 ⊢
      rw [getElem?_cons4] at h1 h2 h3 h4
      have ih := processPixels_bg t w m rest (i + 4) (by omega)
        (fun j' hj1 hj2 hj4 =>
          hmask j' (by omega) (by simp only [List.length_cons]; omega) hj4)
        n r g b a h1 h2 h3 h4
      simp [processPixels, hc, getElem?_cons4]
      exact ih

/-- The loop never writes to the original buffer: only `processed` changes. -/
theorem grayLoop_original (t : Nat) (w : Bool) (m : List Nat) :
    ∀ (fuel i : Nat) (st : EffBuffers), st.processed.length ≤ i + fuel →
      (grayLoop t w m i st).original = st.original
  | 0, i, st, h => by
    rw [grayLoop, dif_neg (by omega)]
  | fuel + 1, i, st, h => by
    rw [grayLoop]
    split
    · exact grayLoop_original t w m fuel (i + 4) _
        (by simp only [length_grayBody]; omega)
    · rfl

/-- Refinement: running the in-place loop from byte index `pre.length` over
the buffer `pre ++ d` rewrites exactly the suffix `d` to `processPixels`'s
value of it, and leaves the original untouched.  The length of the remaining
suffix must be a multiple of 4, which the ImageData constructor guarantees
for the whole buffer. -/
theorem grayLoop_spec (t : Nat) (w : Bool) (m : List Nat) :
    ∀ (n : Nat) (d pre o : List Nat), d.length = n → n % 4 = 0 →
      grayLoop t w m pre.length { original := o, processed := pre ++ d }
        = { original := o, processed := pre ++ processPixels t w m pre.length d } := by
  intro n
  induction n using Nat.strong_induction_on with
  | _ n ih =>
    intro d pre o hlen hmod
    match d with
    | [] =>
      rw [grayLoop, dif_neg (by simp)]
      simp [processPixels]
    | [x] =>
      simp at hlen
      omega
    | [x, y] =>
      simp at hlen
      omega
    | [x, y, z] =>
      simp at hlen
      omega
    | r :: g :: b :: a :: rest =>
      have hlt : pre.length < (pre ++ r :: g :: b :: a :: rest).length := by
        simp only [List.length_append, List.length_cons]
        omega
      have hn4 : 4 ≤ n := by
        simp only [List.length_cons] at hlen
        omega
      have hrest : rest.length = n - 4 := by
        simp only [List.length_cons] at hlen
        omega
      rw [grayLoop, dif_pos hlt]
      cases hc : maskBelow m pre.length t with
      | false =>
        have hbody : grayBody t w m pre.length (pre ++ r :: g :: b :: a :: rest)
            = pre ++ r :: g :: b :: a :: rest := by
          simp [grayBody, hc]
        rw [hbody]
        rw [show (pre ++ r :: g :: b :: a :: rest : List Nat)
            = (pre ++ [r, g, b, a]) ++ rest from by simp]
        rw [show pre.length + 4 = (pre ++ [r, g, b, a]).length from by simp]
        rw [ih (n - 4) (by omega) rest (pre ++ [r, g, b, a]) o (by omega) (by omega)]
        simp [processPixels, hc]
      | true =>
        have e0 : (pre ++ r :: g :: b :: a :: rest)[pre.length]? = some r := by
          rw [show pre.length = pre.length + 0 from by omega, getElem?_append_off]
          rfl
        have e1 : (pre ++ r :: g :: b :: a :: rest)[pre.length + 1]? = some g := by
          rw [getElem?_append_off]
          rfl
        have e2 : (pre ++ r :: g :: b :: a :: rest)[pre.length + 2]? = some b := by
          rw [getElem?_append_off]
          rfl
        have s0 : (pre ++ r :: g :: b :: a :: rest).set pre.length (grayValue w r g b)
            = pre ++ grayValue w r g b :: g :: b :: a :: rest := by
          rw [show pre.length = pre.length + 0 from by omega, set_append_off]
          rfl
        have s1 : (pre ++ grayValue w r g b :: g :: b :: a :: rest).set (pre.length + 1)
              (grayValue w r g b)
            = pre ++ grayValue w r g b :: grayValue w r g b :: b :: a :: rest := by
          rw [set_append_off]
          rfl
        have s2 : (pre ++ grayValue w r g b :: grayValue w r g b :: b :: a :: rest).set
              (pre.length + 2) (grayValue w r g b)
            = pre ++ grayValue w r g b :: grayValue w r g b :: grayValue w r g b :: a :: rest := by
          rw [set_append_off]
          rfl
        have hbody : grayBody t w m pre.length (pre ++ r :: g :: b :: a :: rest)
            = pre ++ grayValue w r g b :: grayValue w r g b :: grayValue w r g b :: a :: rest := by
          simp only [grayBody, hc, if_true, e0, e1, e2, Option.getD_some, writeGray]
          rw [s0, s1, s2]
        rw [hbody]
        rw [show (pre ++ grayValue w r g b :: grayValue w r g b :: grayValue w r g b :: a :: rest :
              List Nat)
            = (pre ++ [grayValue w r g b, grayValue w r g b, grayValue w r g b, a]) ++ rest
            from by simp]
        rw [show pre.length + 4
            = (pre ++ [grayValue w r g b, grayValue w r g b, grayValue w r g b, a]).length
            from by simp]
        rw [ih (n - 4) (by omega) rest
          (pre ++ [grayValue w r g b, grayValue w r g b, grayValue w r g b, a]) o
          (by omega) (by omega)]
        simp [processPixels, hc]

/-- A pixel whose mask sample index is past the end of the mask bytes is
left unchanged: the out-of-range read never compares as below-threshold. -/
theorem processPixels_oob (t : Nat) (w : Bool) (m : List Nat) :
    ∀ (p : Nat) (d : List Nat) (i k : Nat), k < 4 → m.length ≤ i + 4 * p →
      (processPixels t w m i d)[4 * p + k]? = d[4 * p + k]?
  | 0, [], _, _, _, _ => by simp [processPixels]
  | 0, [x], _, _, _, _ => by simp [processPixels]
  | 0, [x, y], _, _, _, _ => by simp [processPixels]
  | 0, [x, y, z], _, _, _, _ => by simp [processPixels]
  | 0, r :: g :: b :: a :: rest, i, k, hk, hm => by
    have hc : maskBelow m i t = false := by
      unfold maskBelow
      rw [List.getElem?_eq_none (by omega)]
    simp only [Nat.mul_zero, Nat.zero_add]
    simp [processPixels, hc]
    interval_cases k <;> simp
  | n + 1, [], _, _, _, _ => by simp [processPixels]
  | n + 1, [x], _, _, _, _ => by simp [processPixels]
  | n + 1, [x, y], _, _, _, _ => by simp [processPixels]
  | n + 1, [x, y, z], _, _, _, _ => by simp [processPixels]
  | n + 1, r :: g :: b :: a :: rest, i, k, hk, hm => by
    have e : 4 * (n + 1) + k = (4 * n + k) + 4 := by omega
    rw [e]
    cases hc : maskBelow m i t <;>
      simp only [processPixels, hc, if_true, if_false, Bool.false_eq_true, if_neg,
        ite_false, ite_true] <;>
      rw [getElem?_cons4, getElem?_cons4] <;>
      exact processPixels_oob t w m n rest (i + 4) k hk (by omega)

/-- After a reset, as long as no enable happens, every further event leaves
the manager disabled with an empty cache: resets keep it so, and result
callbacks are rejected by the enabled-flag guard. -/
theorem segRun_disabled_invariant :
    ∀ (es : List SegEvent) (s : SegState),
      s.isProcessingEnabled = false → s.latestResult = none →
      (∀ e ∈ es, e ≠ SegEvent.enableCall) →
      (segRun s es).isProcessingEnabled = false ∧ (segRun s es).latestResult = none := by
  intro es
  induction es with
  | nil =>
    intro s h1 h2 _
    exact ⟨h1, h2⟩
  | cons e rest ihe =>
    intro s h1 h2 hne
    have hstep : (segStep s e).isProcessingEnabled = false ∧
        (segStep s e).latestResult = none := by
      cases e with
      | resetCall => simp [segStep, SegState.reset]
      | enableCall => exact absurd rfl (hne _ (by simp))
      | resultCallback m => simp [segStep, SegState.onResults, h1, h2]
    exact ihe (segStep s e) hstep.1 hstep.2
      (fun e' he' => hne e' (List.mem_cons_of_mem _ he'))

/-! Claim theorems. -/

/-- C1 (code bug): the spec says the confidence threshold defaults to 127
(mid-scale), classifying a pixel as background iff its confidence is
strictly below 127.  The code's `DEFAULT_THRESHOLD` is 255, and the repo's
own documentation states the intended threshold is 0.5 of the scale; under
the code's default every call without an explicit threshold — including the
scheduler's optionless call on line 210 of BackgroundFilteredVideo.tsx —
grayscales a pixel of confidence 200 (which the spec requires to stay in
color, 200 ≥ 127), as this evaluation at a 1×1 frame (200,100,50,255) with
mask confidence 200 shows. -/
theorem default_threshold_is_255_not_127_c1 :
    DEFAULT_THRESHOLD = 255 ∧
    applyGrayscaleToBackground ⟨1, 1, [200, 100, 50, 255]⟩ ⟨1, 1, [200, 200, 200, 255]⟩ {}
      = ⟨1, 1, [117, 117, 117, 255]⟩ ∧
    renderTick ⟨1, 1, [200, 100, 50, 255]⟩ (some ⟨1, 1, [200, 200, 200, 255]⟩)
      = ⟨1, 1, [117, 117, 117, 255]⟩ := by
  refine ⟨rfl, by decide, by decide⟩

/-- C2: in any trace that issues a request, calls reset(), and delivers the
provider's callback after any further events none of which is enable(), the
late result is rejected: the cached mask slot stays empty and requestMask
(processFrame) returns null, not the stale mask — even though the callback
arrives after reset() has returned. -/
theorem stale_callback_rejected_after_reset_c2 (s : SegState) (es : List SegEvent)
    (m : ImageData) (hne : ∀ e ∈ es, e ≠ SegEvent.enableCall) :
    ((segRun s.reset es).onResults (some m)).latestResult = none ∧
    requestMaskResult ((segRun s.reset es).onResults (some m)) = none := by
  have hinv := segRun_disabled_invariant es s.reset rfl rfl hne
  have hrej : (segRun s.reset es).onResults (some m) = segRun s.reset es := by
    simp [SegState.onResults, hinv.1]
  rw [hrej]
  exact ⟨hinv.2, hinv.2⟩

theorem stale_callback_rejected_after_reset_c2_witness :
    ((segRun initialSegState.reset []).onResults
        (some ⟨1, 1, [0, 0, 0, 0]⟩)).latestResult = none ∧
    requestMaskResult ((segRun initialSegState.reset []).onResults
        (some ⟨1, 1, [0, 0, 0, 0]⟩)) = none :=
  stale_callback_rejected_after_reset_c2 initialSegState [] ⟨1, 1, [0, 0, 0, 0]⟩
    (by intro e he; simp at he)

/-- C3: the staleness guard is the enabled flag alone — `onResults` never
reads `sessionId` (see its definition) — so a reset() immediately followed
by enable() between a request's issue and its callback lets the prior
session's result be accepted: it is cached, returned by requestMask, and the
session id really did change in between. -/
theorem stale_result_accepted_after_reset_enable_c3 (s : SegState) (m : ImageData) :
    ((s.reset.enable).onResults (some m)).latestResult = some m ∧
    requestMaskResult ((s.reset.enable).onResults (some m)) = some m ∧
    (s.reset.enable).sessionId = s.sessionId + 1 := by
  simp [SegState.reset, SegState.enable, SegState.onResults, requestMaskResult]

/-- C4: when every sampled mask confidence is at or above the threshold —
including samples exactly equal to it — the composite output is the input
frame, byte for byte (the `maskValue < threshold` test fails everywhere, so
no pixel is written). -/
theorem composite_identity_above_threshold_c4 (frame mask : ImageData)
    (opts : ProcessingOptions)
    (hcompat : areCompatibleDimensions frame mask = true)
    (hfg : ∀ i v, i % 4 = 0 → i < frame.data.length → mask.data[i]? = some v →
      opts.threshold.getD DEFAULT_THRESHOLD ≤ v) :
    applyGrayscaleToBackground frame mask opts = frame := by
  have h := processPixels_id (opts.threshold.getD DEFAULT_THRESHOLD)
    (opts.useWeightedGrayscale.getD false) mask.data frame.data 0
    (fun j v hj h0 hlt hm => hfg j v hj (by omega) hm) rfl
  simp [applyGrayscaleToBackground, h]

theorem composite_identity_above_threshold_c4_witness :
    applyGrayscaleToBackground ⟨1, 1, [200, 100, 50, 255]⟩ ⟨1, 1, [255, 255, 255, 255]⟩
      { threshold := some 255 } = ⟨1, 1, [200, 100, 50, 255]⟩ :=
  composite_identity_above_threshold_c4 ⟨1, 1, [200, 100, 50, 255]⟩
    ⟨1, 1, [255, 255, 255, 255]⟩ { threshold := some 255 } (by decide)
    (by intro i v hi hlt hv; simp at hlt; interval_cases i <;> simp_all)

/-- C5: when every sampled mask confidence is strictly below the threshold,
every pixel of the output has R = G = B equal to the gray value of the
selected method — (r+g+b)/3 for Average, the bit-exact IEEE-double
computation of 0.299r+0.587g+0.114b for PerceptualWeighted, stored rounded
and clamped to the 0-255 byte range — with the alpha byte unchanged;
Average on (200,100,50) stores 117 and PerceptualWeighted stores 124. -/
theorem composite_grayscale_below_threshold_c5 (frame mask : ImageData)
    (opts : ProcessingOptions)
    (hwff : frame.data.length = 4 * (frame.width * frame.height))
    (hwfm : mask.data.length = 4 * (mask.width * mask.height))
    (hcompat : areCompatibleDimensions frame mask = true)
    (hbg : ∀ i v, i % 4 = 0 → mask.data[i]? = some v →
      v < opts.threshold.getD DEFAULT_THRESHOLD) :
    (∀ j r g b a,
      frame.data[4 * j]? = some r → frame.data[4 * j + 1]? = some g →
      frame.data[4 * j + 2]? = some b → frame.data[4 * j + 3]? = some a →
      (applyGrayscaleToBackground frame mask opts).data[4 * j]?
          = some (grayValue (opts.useWeightedGrayscale.getD false) r g b) ∧
      (applyGrayscaleToBackground frame mask opts).data[4 * j + 1]?
          = some (grayValue (opts.useWeightedGrayscale.getD false) r g b) ∧
      (applyGrayscaleToBackground frame mask opts).data[4 * j + 2]?
          = some (grayValue (opts.useWeightedGrayscale.getD false) r g b) ∧
      (applyGrayscaleToBackground frame mask opts).data[4 * j + 3]? = some a) ∧
    grayValue false 200 100 50 = 117 ∧ grayValue true 200 100 50 = 124 := by
  refine ⟨?_, by decide, by decide⟩
  · intro j r g b a h1 h2 h3 h4
    have hlen : mask.data.length = frame.data.length := by
      have hc' : frame.width = mask.width ∧ frame.height = mask.height := by
        simpa [areCompatibleDimensions] using hcompat
      rw [hwff, hwfm, hc'.1, hc'.2]
    have hmb : ∀ j', 0 ≤ j' → j' < 0 + frame.data.length → j' % 4 = 0 →
        maskBelow mask.data j' (opts.threshold.getD DEFAULT_THRESHOLD) = true := by
      intro j' _ hlt hj4
      have hlt' : j' < mask.data.length := by omega
      have hsome : mask.data[j']? = some mask.data[j'] := List.getElem?_eq_getElem hlt'
      have hv := hbg j' _ hj4 hsome
      unfold maskBelow
      rw [hsome]
      simpa using hv
    have h := processPixels_bg (opts.threshold.getD DEFAULT_THRESHOLD)
      (opts.useWeightedGrayscale.getD false) mask.data frame.data 0 rfl hmb
      j r g b a h1 h2 h3 h4
    simpa [applyGrayscaleToBackground] using h

theorem composite_grayscale_below_threshold_c5_witness :
    (applyGrayscaleToBackground ⟨1, 1, [200, 100, 50, 9]⟩ ⟨1, 1, [0, 0, 0, 0]⟩ {}).data[4 * 0]?
        = some 117 ∧
    (applyGrayscaleToBackground ⟨1, 1, [200, 100, 50, 9]⟩ ⟨1, 1, [0, 0, 0, 0]⟩
        {}).data[4 * 0 + 1]? = some 117 ∧
    (applyGrayscaleToBackground ⟨1, 1, [200, 100, 50, 9]⟩ ⟨1, 1, [0, 0, 0, 0]⟩
        {}).data[4 * 0 + 2]? = some 117 ∧
    (applyGrayscaleToBackground ⟨1, 1, [200, 100, 50, 9]⟩ ⟨1, 1, [0, 0, 0, 0]⟩
        {}).data[4 * 0 + 3]? = some 9 :=
  (composite_grayscale_below_threshold_c5 ⟨1, 1, [200, 100, 50, 9]⟩ ⟨1, 1, [0, 0, 0, 0]⟩ {}
      rfl rfl (by decide)
      (by intro i v hi hv
          have hlt := (List.getElem?_eq_some.mp hv).1
          simp only [List.length_cons, List.length_nil] at hlt
          interval_cases i <;> simp_all [DEFAULT_THRESHOLD] <;> omega)).1
    0 200 100 50 9 rfl rfl rfl rfl

/-- C6: the guard flag drops a tick that fires while one is in flight — the
state is returned unchanged, so no capture, compositing or stats recording
happens for the dropped tick and nothing is queued — and in the 3-tick
scenario where tick 2 arrives while tick 1's mask request is outstanding,
the FPS tracker ends with exactly 2 samples, not 3. -/
theorem tick_dropped_while_in_flight_c6 :
    (∀ s : SchedState, s.isProcessingActive = true → s.isFrameProcessing = true →
      tickStart s = (s, false)) ∧
    tickStart (tickStart startedSchedState).1 = ((tickStart startedSchedState).1, false) ∧
    (tickComplete (tickStart (tickComplete (tickStart startedSchedState).1 100)).1
        200).fpsCounter.length = 2 := by
  refine ⟨?_, ?_, ?_⟩
  · intro s h1 h2
    simp [tickStart, h1, h2]
  · norm_num [tickStart, startedSchedState]
  · norm_num [tickComplete, tickStart, recordStats, startedSchedState]

theorem tick_dropped_while_in_flight_c6_witness :
    tickStart ⟨true, true, [], 0⟩ = (⟨true, true, [], 0⟩, false) :=
  tick_dropped_while_in_flight_c6.1 ⟨true, true, [], 0⟩ rfl rfl

/-- C7: whenever no mask is available or the frame/mask dimension check
fails, the scheduler's tick output is the raw frame unchanged; both branches
are plain returns of the (total) decision function, so no exception reaches
the caller. -/
theorem passthrough_on_missing_or_incompatible_mask_c7 (frame : ImageData)
    (maybeMask : Option ImageData)
    (h : maybeMask = none ∨
      ∀ m, maybeMask = some m → areCompatibleDimensions frame m = false) :
    renderTick frame maybeMask = frame := by
  rcases h with h | h
  · rw [h]
    rfl
  · cases maybeMask with
    | none => rfl
    | some m => simp [renderTick, h m rfl]

theorem passthrough_on_missing_or_incompatible_mask_c7_witness :
    renderTick ⟨100, 100, List.replicate 40000 0⟩
      (some ⟨50, 50, List.replicate 10000 0⟩) = ⟨100, 100, List.replicate 40000 0⟩ :=
  passthrough_on_missing_or_incompatible_mask_c7 ⟨100, 100, List.replicate 40000 0⟩
    (some ⟨50, 50, List.replicate 10000 0⟩)
    (Or.inr (by intro m hm; cases hm; decide))

/-- C8: the compositor never mutates its input frame — every write of the
loop targets the freshly allocated clone, so the original byte array is the
same after the call — and the buffer it returns is that clone, whose final
contents are `applyGrayscaleToBackground`'s value (for any real ImageData,
whose byte length is a multiple of 4). -/
theorem composite_does_not_mutate_input_c8 (frame mask : ImageData)
    (opts : ProcessingOptions) :
    (applyGrayscaleToBackgroundImp frame mask opts).original = frame.data ∧
    (frame.data.length % 4 = 0 →
      (applyGrayscaleToBackgroundImp frame mask opts).processed
        = (applyGrayscaleToBackground frame mask opts).data) := by
  constructor
  · exact grayLoop_original _ _ _ frame.data.length 0 _ (by simp)
  · intro hmod
    have h := grayLoop_spec (opts.threshold.getD DEFAULT_THRESHOLD)
      (opts.useWeightedGrayscale.getD false) mask.data frame.data.length
      frame.data [] frame.data rfl hmod
    simp only [List.nil_append, List.length_nil] at h
    simp [applyGrayscaleToBackgroundImp, applyGrayscaleToBackground, h]

theorem composite_does_not_mutate_input_c8_witness :
    (applyGrayscaleToBackgroundImp ⟨1, 1, [200, 100, 50, 255]⟩
        ⟨1, 1, [0, 0, 0, 0]⟩ {}).original = [200, 100, 50, 255] ∧
    (applyGrayscaleToBackgroundImp ⟨1, 1, [200, 100, 50, 255]⟩
        ⟨1, 1, [0, 0, 0, 0]⟩ {}).processed
      = (applyGrayscaleToBackground ⟨1, 1, [200, 100, 50, 255]⟩
          ⟨1, 1, [0, 0, 0, 0]⟩ {}).data :=
  have h := composite_does_not_mutate_input_c8 ⟨1, 1, [200, 100, 50, 255]⟩
    ⟨1, 1, [0, 0, 0, 0]⟩ {}
  ⟨h.1, h.2 (by decide)⟩

/-- C9: under a fully-background mask (every sample strictly below the
threshold) the compositor is idempotent — compositing twice gives the same
frame as compositing once, whichever grayscale method the options select.
For PerceptualWeighted this rests on `grayValue_fixpoint`: the bit-exact
IEEE-double computation at (c, c, c) stores back c for every byte c,
verified byte by byte against the double model. -/
theorem composite_idempotent_background_c9 (frame mask : ImageData)
    (opts : ProcessingOptions)
    (hcompat : areCompatibleDimensions frame mask = true)
    (hbg : ∀ i v, i % 4 = 0 → mask.data[i]? = some v →
      v < opts.threshold.getD DEFAULT_THRESHOLD) :
    applyGrayscaleToBackground (applyGrayscaleToBackground frame mask opts) mask opts
      = applyGrayscaleToBackground frame mask opts := by
  simp [applyGrayscaleToBackground]
  exact processPixels_idem _ _ mask.data frame.data 0

theorem composite_idempotent_background_c9_witness :
    applyGrayscaleToBackground
        (applyGrayscaleToBackground ⟨1, 1, [200, 100, 50, 255]⟩ ⟨1, 1, [0, 0, 0, 0]⟩
          { useWeightedGrayscale := some true })
        ⟨1, 1, [0, 0, 0, 0]⟩ { useWeightedGrayscale := some true }
      = applyGrayscaleToBackground ⟨1, 1, [200, 100, 50, 255]⟩ ⟨1, 1, [0, 0, 0, 0]⟩
          { useWeightedGrayscale := some true } :=
  composite_idempotent_background_c9 ⟨1, 1, [200, 100, 50, 255]⟩ ⟨1, 1, [0, 0, 0, 0]⟩
    { useWeightedGrayscale := some true } (by decide)
    (by intro i v hi hv
        have hlt := (List.getElem?_eq_some.mp hv).1
        simp only [List.length_cons, List.length_nil] at hlt
        interval_cases i <;> simp_all [DEFAULT_THRESHOLD] <;> omega)

/-- C10: with a mask byte array shorter than the frame's, the compositor
still returns normally (it is a total function of its inputs) and every
pixel whose mask sample index 4j is past the end of the mask bytes is left
unchanged: the out-of-range read yields no value and never compares as
below-threshold. -/
theorem composite_total_short_mask_c10 (frame mask : ImageData)
    (opts : ProcessingOptions)
    (hshort : mask.data.length < frame.data.length) :
    ∀ j k, k < 4 → mask.data.length ≤ 4 * j →
      (applyGrayscaleToBackground frame mask opts).data[4 * j + k]?
        = frame.data[4 * j + k]? := by
  intro j k hk hj
  have h := processPixels_oob (opts.threshold.getD DEFAULT_THRESHOLD)
    (opts.useWeightedGrayscale.getD false) mask.data j frame.data 0 k hk (by omega)
  simpa [applyGrayscaleToBackground] using h

theorem composite_total_short_mask_c10_witness :
    (applyGrayscaleToBackground ⟨2, 1, [200, 100, 50, 255, 10, 20, 30, 40]⟩
        ⟨1, 1, [0, 0, 0, 0]⟩ {}).data[4 * 1 + 0]?
      = (⟨2, 1, [200, 100, 50, 255, 10, 20, 30, 40]⟩ : ImageData).data[4 * 1 + 0]? :=
  composite_total_short_mask_c10 ⟨2, 1, [200, 100, 50, 255, 10, 20, 30, 40]⟩
    ⟨1, 1, [0, 0, 0, 0]⟩ {} (by decide) 1 0 (by decide) (by decide)
